import Mathlib

/-!
# Verification of `compare_versions.py`

A shallow embedding of `.github/workflows/scripts/compare_versions.py`:
semantic-version parsing (`parse_version`), comparison (`compare_versions`)
and the CLI entry point (`main`), together with theorems settling the
claims about them.

Strings are modelled as `List Char` internally (the alphabet is restricted
to ASCII/Unicode codepoints as Lean `Char`s; Python's `str.isdigit` and
`int` agree with the models below on ASCII input, which is all the spec and
the version-string domain use).
-/

/-- Python whitespace as recognised by `int()` / `str.strip()`. -/
def pySpace (c : Char) : Bool :=
  c = ' ' || c = '\t' || c = '\n' || c = '\r' || c = '\x0b' || c = '\x0c'

/-- Numeric value of an ASCII digit character. -/
def digitVal (c : Char) : Nat := c.toNat - 48

/-- Python `str.isdigit` (restricted to ASCII): non-empty and all digits. -/
def isDigits (l : List Char) : Bool := !l.isEmpty && l.all Char.isDigit

/-- Value of an all-digit string, most significant digit first
(what Python `int` returns on an unsigned digit string). -/
def digitsToNat (l : List Char) : Nat := l.foldl (fun a c => 10 * a + digitVal c) 0

/-- Digit tail of a Python integer literal after the first digit:
digits possibly separated by single underscores, consuming the whole list. -/
def parseDigitsU : List Char → Nat → Option Nat
  | [], acc => some acc
  | c :: rest, acc =>
      if c = '_' then
        match rest with
        | [] => none
        | d :: rest' =>
            if d.isDigit then parseDigitsU rest' (10 * acc + digitVal d) else none
      else if c.isDigit then parseDigitsU rest (10 * acc + digitVal c) else none

/-- An unsigned Python integer literal: a digit, then `parseDigitsU`. -/
def parsePyDigits : List Char → Option Nat
  | [] => none
  | c :: rest => if c.isDigit then parseDigitsU rest (digitVal c) else none

/-- Python `int(s)` on a string: optional surrounding whitespace, optional
sign, then decimal digits with optional single underscores between them.
Returns `none` where Python raises `ValueError`. -/
def pyInt (l : List Char) : Option Int :=
  let l₁ := l.dropWhile pySpace
  let l₂ := (l₁.reverse.dropWhile pySpace).reverse
  match l₂ with
  | [] => none
  | c :: rest =>
      if c = '+' then (parsePyDigits rest).map Int.ofNat
      else if c = '-' then (parsePyDigits rest).map (fun n => -(n : Int))
      else (parsePyDigits (c :: rest)).map Int.ofNat

/-- Python `s.split(sep)` for a one-character separator (no maxsplit). -/
def splitOn (sep : Char) : List Char → List (List Char)
  | [] => [[]]
  | c :: rest =>
      if c = sep then [] :: splitOn sep rest
      else
        match splitOn sep rest with
        | [] => [[c]]
        | s :: ss => (c :: s) :: ss

/-- Python `s.split(sep, 1)`: text before the first separator, and the
remainder after it when the separator occurs. -/
def splitFirst (sep : Char) : List Char → List Char × Option (List Char)
  | [] => ([], none)
  | c :: rest =>
      if c = sep then ([], some rest)
      else
        let p := splitFirst sep rest
        (c :: p.1, p.2)

/-- A parsed semantic version: `(major, minor, patch, prerelease)`. -/
structure Version where
  major : Int
  minor : Int
  patch : Int
  prerelease : List Char
deriving DecidableEq, Repr

/-- `parse_version` from the script: strip every leading `v`
(Python `lstrip('v')`), split base from prerelease at the first `-`,
require exactly three dot-separated base segments, convert each with
`int()`; on failure raise `ValueError("Invalid version format: …")`. -/
def parse_version (version : String) : Except String Version :=
  let stripped := version.data.dropWhile (fun c => c = 'v')
  let p := splitFirst '-' stripped
  let prerelease := p.2.getD []
  let segs := splitOn '.' p.1
  let err : Except String Version :=
    .error ("Invalid version format: " ++ String.mk stripped)
  match segs with
  | [a, b, c] =>
      match pyInt a, pyInt b, pyInt c with
      | some x, some y, some z => .ok ⟨x, y, z, prerelease⟩
      | _, _, _ => err
  | _ => err

/-- Python string comparison (`<`, `>`): lexicographic by codepoint. -/
def strOrd : List Char → List Char → Ordering
  | [], [] => .eq
  | [], _ :: _ => .lt
  | _ :: _, [] => .gt
  | a :: as, b :: bs =>
      if a.toNat < b.toNat then .lt
      else if b.toNat < a.toNat then .gt
      else strOrd as bs

/-- The prerelease-segment loop of `compare_versions`: given the
dot-separated segments of `current` and `new`, return `True` iff `new`'s
prerelease is higher. Pairs are compared left to right (numeric vs numeric
numerically, numeric below non-numeric, non-numeric vs non-numeric
lexicographically); after `min(len, len)` equal pairs, the longer segment
list wins. -/
def gtSegs : List (List Char) → List (List Char) → Bool
  | c :: cs, n :: ns =>
      if isDigits c && isDigits n then
        if digitsToNat n > digitsToNat c then true
        else if digitsToNat n < digitsToNat c then false
        else gtSegs cs ns
      else if isDigits c && !(isDigits n) then true
      else if !(isDigits c) && isDigits n then false
      else
        match strOrd n c with
        | .gt => true
        | .lt => false
        | .eq => gtSegs cs ns
  | [], ns => !ns.isEmpty
  | _ :: _, [] => false

/-- The body of `compare_versions` after both strings parsed: major, minor,
patch compared in order; then stable beats prerelease; then the prerelease
segment loop; equal versions yield `False`. -/
def compareParsed (cur new : Version) : Bool :=
  if new.major > cur.major then true
  else if new.major < cur.major then false
  else if new.minor > cur.minor then true
  else if new.minor < cur.minor then false
  else if new.patch > cur.patch then true
  else if new.patch < cur.patch then false
  else if cur.prerelease.isEmpty && !new.prerelease.isEmpty then false
  else if !cur.prerelease.isEmpty && new.prerelease.isEmpty then true
  else if !cur.prerelease.isEmpty && !new.prerelease.isEmpty then
    gtSegs (splitOn '.' cur.prerelease) (splitOn '.' new.prerelease)
  else false

/-- `compare_versions(current, new)`: parse both (a `ValueError` from either
parse propagates, `current` first), then compare. `True` iff `new > current`. -/
def compare_versions (current new : String) : Except String Bool :=
  match parse_version current with
  | .error e => .error e
  | .ok cv =>
      match parse_version new with
      | .error e => .error e
      | .ok nv => .ok (compareParsed cv nv)

/-- Outcome of one CLI invocation: process exit code, what was printed to
stdout and what to stderr. -/
structure MainOutcome where
  exitCode : Nat
  out : Option String
  err : Option String
deriving DecidableEq, Repr

/-- `main` once argparse has produced the two argument strings: print the
comparison result and exit 0 or 1, or print the `ValueError` to stderr and
exit 2. -/
def pyMain (current new : String) : MainOutcome :=
  match compare_versions current new with
  | .ok true =>
      ⟨0, some ("✓ New version " ++ new ++ " is higher than current version " ++ current), none⟩
  | .ok false =>
      ⟨1, some ("✗ New version " ++ new ++ " is NOT higher than current version " ++ current), none⟩
  | .error e => ⟨2, none, some ("Error: " ++ e)⟩

/-- Modelled from the spec: the argparse layer of `main` is library code not
in the repository; per the spec, an invocation missing the required
`--current` or `--new` argument is a usage error, reported on stderr with
exit code 2 and no comparison result printed. With both arguments present
it behaves as `pyMain`. -/
def cliMain : Option String → Option String → MainOutcome
  | some current, some new => pyMain current new
  | _, _ => ⟨2, none, some "usage: compare_versions.py [-h] --current CURRENT --new NEW"⟩

instance {ε α : Type} [DecidableEq ε] [DecidableEq α] : DecidableEq (Except ε α)
  | .error a, .error b =>
      if h : a = b then .isTrue (congrArg _ h)
      else .isFalse (fun hh => h (Except.error.inj hh))
  | .error _, .ok _ => .isFalse Except.noConfusion
  | .ok _, .error _ => .isFalse Except.noConfusion
  | .ok a, .ok b =>
      if h : a = b then .isTrue (congrArg _ h)
      else .isFalse (fun hh => h (Except.ok.inj hh))

/-! ## Specification-side definitions

These follow the spec's wording and are compared against the embedded code. -/

/-- From the spec: compare `major`, then `minor`, then `patch` as integers,
left to right; the first unequal field decides whether `new` is greater. -/
def tripleGt (cur new : Int × Int × Int) : Bool :=
  if new.1 ≠ cur.1 then new.1 > cur.1
  else if new.2.1 ≠ cur.2.1 then new.2.1 > cur.2.1
  else new.2.2 > cur.2.2

/-- From the spec: ordering of one pair of prerelease segments — two numeric
segments compare numerically, a numeric segment sorts lower than a
non-numeric one, two non-numeric segments compare lexicographically. -/
def specSegOrd (a b : List Char) : Ordering :=
  if isDigits a then
    if isDigits b then compare (digitsToNat a) (digitsToNat b) else .lt
  else if isDigits b then .gt
  else strOrd a b

/-- From the spec: corresponding prerelease segments are compared pairwise
left to right, the first differing pair decides, and if every compared pair
is equal the prerelease with more segments is higher. `specPreGt cur new`
is `true` iff `new`'s segment list is higher. -/
def specPreGt : List (List Char) → List (List Char) → Bool
  | c :: cs, n :: ns =>
      match specSegOrd c n with
      | .lt => true
      | .gt => false
      | .eq => specPreGt cs ns
  | [], _ :: _ => true
  | _, [] => false

/-- The dot-separated segments of the base portion (before the first `-`,
after stripping leading `v`s) of a version string. -/
def baseSegs (s : String) : List (List Char) :=
  splitOn '.' (splitFirst '-' (s.data.dropWhile (fun c => c = 'v'))).1

/-- Fuel-driven digit expansion: the decimal digits of `n`, most
significant first, provided `n < fuel`. -/
def natReprAux : Nat → Nat → List Char
  | _, 0 => []
  | n, fuel + 1 =>
      if n = 0 then []
      else natReprAux (n / 10) fuel ++ [Char.ofNat (48 + n % 10)]

/-- Decimal notation of a natural number (most significant digit first),
used to build the version strings of the round-trip claims. -/
def natRepr (n : Nat) : List Char :=
  if n = 0 then ['0'] else natReprAux n (n + 1)

/-- The version string `"a.b.c"` for a triple of natural numbers. -/
def verString (a b c : Nat) : String :=
  String.mk (natRepr a ++ '.' :: (natRepr b ++ '.' :: natRepr c))

example : parse_version "1.2.3" = .ok ⟨1, 2, 3, []⟩ := by decide
example : parse_version "v1.2.3-preview.1" =
    .ok ⟨1, 2, 3, ['p','r','e','v','i','e','w','.','1']⟩ := by decide
example : compare_versions "1.0.0-alpha" "1.0.0-alpha.1" = .ok true := by decide
example : compare_versions "1.0.0-alpha.1" "1.0.0-alpha.beta" = .ok true := by decide
example : compare_versions "1.0.0-alpha" "1.0.0" = .ok true := by decide
example : compare_versions "1.0.0" "1.0.0-alpha" = .ok false := by decide
example : (parse_version "1.2").isOk = false := by decide
example : (parse_version "1.2.x").isOk = false := by decide
example : parse_version "1.+2.3" = .ok ⟨1, 2, 3, []⟩ := by decide
example : parse_version "vv1.2.3" = .ok ⟨1, 2, 3, []⟩ := by decide
example : parse_version "1.2.3-" = .ok ⟨1, 2, 3, []⟩ := by decide
example : pyInt " 12 ".data = some 12 := by decide
example : pyInt "1_2".data = some 12 := by decide
example : pyInt "1__2".data = none := by decide
example : pyInt "+3".data = some 3 := by decide
example : pyInt "_1".data = none := by decide
example : pyInt "1_".data = none := by decide
example : pyInt "+".data = none := by decide
example : verString 10 2 0 = "10.2.0" := by decide

/-! ## Basic lemmas about the embedded operations -/

theorem compare_versions_ok {c n : String} {vc vn : Version}
    (hc : parse_version c = .ok vc) (hn : parse_version n = .ok vn) :
    compare_versions c n = .ok (compareParsed vc vn) := by
  unfold compare_versions
  rw [hc, hn]

theorem strOrd_swap : ∀ a b : List Char, strOrd b a = (strOrd a b).swap := by
  intro a
  induction a with
  | nil => intro b; cases b <;> rfl
  | cons x xs ih =>
      intro b
      cases b with
      | nil => rfl
      | cons y ys =>
          simp only [strOrd]
          rcases Nat.lt_trichotomy x.toNat y.toNat with h | h | h
          · rw [if_pos h, if_neg (Nat.lt_asymm h), if_pos h]
            rfl
          · rw [if_neg (h ▸ Nat.lt_irrefl _), if_neg (h ▸ Nat.lt_irrefl _),
              if_neg (h ▸ Nat.lt_irrefl _), if_neg (h ▸ Nat.lt_irrefl _)]
            exact ih ys
          · rw [if_pos h, if_neg (Nat.lt_asymm h), if_pos h]
            rfl

theorem gtSegs_eq_specPreGt : ∀ cs ns, gtSegs cs ns = specPreGt cs ns := by
  intro cs
  induction cs with
  | nil => intro ns; cases ns <;> rfl
  | cons c cs ih =>
      intro ns
      cases ns with
      | nil => rfl
      | cons n ns =>
          simp only [gtSegs, specPreGt, specSegOrd]
          by_cases hc : isDigits c = true <;> by_cases hn : isDigits n = true
          · rcases Nat.lt_trichotomy (digitsToNat c) (digitsToNat n) with h | h | h
            · simp [hc, hn, h, Nat.lt_asymm h, Nat.compare_eq_lt.2 h]
            · simp [hc, hn, h, Nat.lt_irrefl, ih,
                Nat.compare_eq_eq.2 (rfl : digitsToNat n = digitsToNat n)]
            · simp [hc, hn, h, Nat.lt_asymm h, Nat.compare_eq_gt.2 h]
          · simp [hc, hn]
          · simp [hc, hn]
          · simp only [hc, hn]
            rw [strOrd_swap c n]
            cases h : strOrd c n <;> simp [hc, hn, Ordering.swap, ih]

theorem gtSegs_asymm : ∀ cs ns, gtSegs cs ns = true → gtSegs ns cs = false := by
  intro cs
  induction cs with
  | nil =>
      intro ns h
      cases ns with
      | nil => simp [gtSegs] at h
      | cons n ns => rfl
  | cons c cs ih =>
      intro ns h
      cases ns with
      | nil => simp [gtSegs] at h
      | cons n ns =>
          simp only [gtSegs] at h ⊢
          by_cases hc : isDigits c = true <;> by_cases hn : isDigits n = true
          · rcases Nat.lt_trichotomy (digitsToNat c) (digitsToNat n) with hd | hd | hd
            · simp [hc, hn, hd, Nat.lt_asymm hd]
            · simp only [hc, hn, hd, Nat.lt_irrefl, Bool.and_self, if_true, if_false,
                reduceIte] at h ⊢
              exact ih ns h
            · simp [hc, hn, hd, Nat.lt_asymm hd] at h
          · simp [hc, hn]
          · simp [hc, hn] at h
          · simp [hc, hn] at h ⊢
            rw [strOrd_swap c n] at h
            cases hs : strOrd c n
            · rfl
            · rw [hs] at h
              simp only [Ordering.swap] at h
              exact ih ns h
            · rw [hs] at h
              exact Bool.noConfusion h

set_option maxHeartbeats 1000000 in
theorem compareParsed_asymm (x y : Version) (h : compareParsed x y = true) :
    compareParsed y x = false := by
  unfold compareParsed at h ⊢
  split_ifs at h ⊢ <;>
    first
      | rfl
      | exact gtSegs_asymm _ _ h
      | (exfalso; omega)
      | (simp_all <;> omega)

set_option maxHeartbeats 1000000 in
theorem compareParsed_ne_triple (x y : Version)
    (h : ¬(x.major = y.major ∧ x.minor = y.minor ∧ x.patch = y.patch)) :
    compareParsed x y = tripleGt (x.major, x.minor, x.patch) (y.major, y.minor, y.patch) := by
  unfold compareParsed tripleGt
  dsimp only
  split_ifs <;>
    first
      | rfl
      | (exfalso; omega)
      | (simp_all <;> omega)

/-! ## Claim theorems -/

/-- C1: for well-formed version strings whose `(major, minor, patch)` triples
differ, `compare_versions` returns exactly the verdict of comparing major,
minor and patch as integers left to right — the first unequal field decides —
regardless of either version's prerelease part. -/
theorem C1_first_unequal_field_decides (c n : String) (vc vn : Version)
    (hc : parse_version c = .ok vc) (hn : parse_version n = .ok vn)
    (hne : ¬(vc.major = vn.major ∧ vc.minor = vn.minor ∧ vc.patch = vn.patch)) :
    compare_versions c n =
      .ok (tripleGt (vc.major, vc.minor, vc.patch) (vn.major, vn.minor, vn.patch)) := by
  rw [compare_versions_ok hc hn, compareParsed_ne_triple vc vn hne]

/-- Witness for C1 at `current = "1.2.3-alpha"`, `new = "1.3.0"`. -/
theorem C1_witness : compare_versions "1.2.3-alpha" "1.3.0" = .ok true := by
  have h := C1_first_unequal_field_decides "1.2.3-alpha" "1.3.0"
    ⟨1, 2, 3, ['a', 'l', 'p', 'h', 'a']⟩ ⟨1, 3, 0, []⟩ (by decide) (by decide) (by decide)
  exact h.trans (by decide)

/-- C3: with equal `(major, minor, patch)` and both prereleases non-empty,
the comparator returns the spec's pairwise comparison of the dot-separated
prerelease segments (numeric pairs numerically, numeric below non-numeric,
non-numeric pairs lexicographically, first difference decides, else the
longer segment list is greater). -/
theorem C3_prerelease_segments (c n : String) (vc vn : Version)
    (hc : parse_version c = .ok vc) (hn : parse_version n = .ok vn)
    (hM : vc.major = vn.major) (hm : vc.minor = vn.minor) (hp : vc.patch = vn.patch)
    (h1 : vc.prerelease ≠ []) (h2 : vn.prerelease ≠ []) :
    compare_versions c n =
      .ok (specPreGt (splitOn '.' vc.prerelease) (splitOn '.' vn.prerelease)) := by
  obtain ⟨d1, t1, he1⟩ := List.exists_cons_of_ne_nil h1
  obtain ⟨d2, t2, he2⟩ := List.exists_cons_of_ne_nil h2
  rw [compare_versions_ok hc hn]
  simp [compareParsed, hM, hm, hp, he1, he2, lt_self_iff_false, gtSegs_eq_specPreGt]

/-- Witness for C3: the two prerelease orderings named by the claim. -/
theorem C3_witness :
    compare_versions "1.0.0-alpha" "1.0.0-alpha.1" = .ok true ∧
    compare_versions "1.0.0-alpha.1" "1.0.0-alpha.beta" = .ok true := by
  constructor
  · exact (C3_prerelease_segments "1.0.0-alpha" "1.0.0-alpha.1"
      ⟨1, 0, 0, ['a', 'l', 'p', 'h', 'a']⟩ ⟨1, 0, 0, ['a', 'l', 'p', 'h', 'a', '.', '1']⟩
      (by decide) (by decide) rfl rfl rfl (by decide) (by decide)).trans (by decide)
  · exact (C3_prerelease_segments "1.0.0-alpha.1" "1.0.0-alpha.beta"
      ⟨1, 0, 0, ['a', 'l', 'p', 'h', 'a', '.', '1']⟩
      ⟨1, 0, 0, ['a', 'l', 'p', 'h', 'a', '.', 'b', 'e', 't', 'a']⟩
      (by decide) (by decide) rfl rfl rfl (by decide) (by decide)).trans (by decide)

/-- C4: with equal `(major, minor, patch)` and exactly one prerelease,
the stable version ranks above the prerelease one: `false` when `current`
is stable and `new` is a prerelease, `true` the other way round. -/
theorem C4_stable_beats_prerelease (c n : String) (vc vn : Version)
    (hc : parse_version c = .ok vc) (hn : parse_version n = .ok vn)
    (hM : vc.major = vn.major) (hm : vc.minor = vn.minor) (hp : vc.patch = vn.patch) :
    (vc.prerelease = [] → vn.prerelease ≠ [] → compare_versions c n = .ok false) ∧
    (vc.prerelease ≠ [] → vn.prerelease = [] → compare_versions c n = .ok true) := by
  constructor
  · intro h1 h2
    obtain ⟨d, tl, hdt⟩ := List.exists_cons_of_ne_nil h2
    rw [compare_versions_ok hc hn]
    simp [compareParsed, hM, hm, hp, h1, hdt, lt_self_iff_false]
  · intro h1 h2
    obtain ⟨d, tl, hdt⟩ := List.exists_cons_of_ne_nil h1
    rw [compare_versions_ok hc hn]
    simp [compareParsed, hM, hm, hp, h2, hdt, lt_self_iff_false]

/-- Witness for C4 at the claim's example pair. -/
theorem C4_witness :
    compare_versions "1.0.0-alpha" "1.0.0" = .ok true ∧
    compare_versions "1.0.0" "1.0.0-alpha" = .ok false := by
  constructor
  · exact (C4_stable_beats_prerelease "1.0.0-alpha" "1.0.0"
      ⟨1, 0, 0, ['a', 'l', 'p', 'h', 'a']⟩ ⟨1, 0, 0, []⟩
      (by decide) (by decide) rfl rfl rfl).2 (by decide) rfl
  · exact (C4_stable_beats_prerelease "1.0.0" "1.0.0-alpha"
      ⟨1, 0, 0, []⟩ ⟨1, 0, 0, ['a', 'l', 'p', 'h', 'a']⟩
      (by decide) (by decide) rfl rfl rfl).1 rfl (by decide)

/-- C7: prefixing any string with `v` never changes the parse (the prefix is
stripped), and in particular `compare("v1.0.0", "v1.0.1")` is `true`. -/
theorem C7_v_prefix :
    (∀ s : String, parse_version ("v" ++ s) = parse_version s) ∧
    compare_versions "v1.0.0" "v1.0.1" = .ok true := by
  constructor
  · intro s
    unfold parse_version
    rw [show ("v" ++ s).data = 'v' :: s.data by simp [String.data_append]]
    simp [List.dropWhile]
  · decide

/-- C8: asymmetry — for two strings that both parse, `compare_versions`
never returns `true` in both argument orders. -/
theorem C8_asymmetry (a b : String) (ra rb : Version)
    (ha : parse_version a = .ok ra) (hb : parse_version b = .ok rb) :
    ¬(compare_versions a b = .ok true ∧ compare_versions b a = .ok true) := by
  rintro ⟨h1, h2⟩
  rw [compare_versions_ok ha hb] at h1
  rw [compare_versions_ok hb ha] at h2
  have h2' := Except.ok.inj h2
  rw [compareParsed_asymm ra rb (Except.ok.inj h1)] at h2'
  exact Bool.noConfusion h2'

/-- Witness for C8 at `"1.0.0"` vs `"2.0.0"`. -/
theorem C8_witness :
    ¬(compare_versions "1.0.0" "2.0.0" = .ok true ∧
      compare_versions "2.0.0" "1.0.0" = .ok true) :=
  C8_asymmetry "1.0.0" "2.0.0" ⟨1, 0, 0, []⟩ ⟨2, 0, 0, []⟩ (by decide) (by decide)

/-- C9: `"1.2.3-"` parses with an empty prerelease and the comparator treats
it exactly like `"1.2.3"`; against `"1.2.3"` it returns `false` both ways. -/
theorem C9_trailing_hyphen :
    parse_version "1.2.3-" = .ok ⟨1, 2, 3, []⟩ ∧
    parse_version "1.2.3" = .ok ⟨1, 2, 3, []⟩ ∧
    (∀ t : String, compare_versions "1.2.3-" t = compare_versions "1.2.3" t ∧
      compare_versions t "1.2.3-" = compare_versions t "1.2.3") ∧
    compare_versions "1.2.3-" "1.2.3" = .ok false ∧
    compare_versions "1.2.3" "1.2.3-" = .ok false := by
  refine ⟨by decide, by decide, ?_, by decide, by decide⟩
  intro t
  have h : parse_version "1.2.3-" = parse_version "1.2.3" := by decide
  constructor
  · unfold compare_versions
    rw [h]
  · unfold compare_versions
    rw [h]

/-- C10: `lstrip('v')` removes every leading `v`, so `"vv1.2.3"` and
`"vvv1.2.3"` parse to the same `(1, 2, 3, "")` as `"1.2.3"`. -/
theorem C10_lstrip_every_v :
    parse_version "vv1.2.3" = .ok ⟨1, 2, 3, []⟩ ∧
    parse_version "vvv1.2.3" = .ok ⟨1, 2, 3, []⟩ ∧
    parse_version "1.2.3" = .ok ⟨1, 2, 3, []⟩ := by
  refine ⟨by decide, by decide, by decide⟩

/-! ## Lemmas about `pyInt` on plain digit strings -/

theorem char_isDigit_ne {c : Char} (x : Char) (h : c.isDigit = true)
    (hx : x.isDigit = false) : c ≠ x := by
  intro he
  rw [he, hx] at h
  cases h

theorem dropWhile_pySpace_digits {l : List Char} (h : ∀ c ∈ l, c.isDigit = true) :
    l.dropWhile pySpace = l := by
  cases l with
  | nil => rfl
  | cons c rest =>
      have hc : c.isDigit = true := h c (List.mem_cons_self c rest)
      have hs : pySpace c = false := by
        unfold pySpace
        rw [decide_eq_false (char_isDigit_ne ' ' hc (by decide)),
          decide_eq_false (char_isDigit_ne '\t' hc (by decide)),
          decide_eq_false (char_isDigit_ne '\n' hc (by decide)),
          decide_eq_false (char_isDigit_ne '\r' hc (by decide)),
          decide_eq_false (char_isDigit_ne '\x0b' hc (by decide)),
          decide_eq_false (char_isDigit_ne '\x0c' hc (by decide))]
        rfl
      simp [List.dropWhile, hs]

theorem parseDigitsU_digits :
    ∀ (l : List Char) (acc : Nat), (∀ c ∈ l, c.isDigit = true) →
      parseDigitsU l acc = some (l.foldl (fun a c => 10 * a + digitVal c) acc) := by
  intro l
  induction l with
  | nil => intro acc _; rfl
  | cons c rest ih =>
      intro acc h
      have hc : c.isDigit = true := h c (List.mem_cons_self c rest)
      have hne : c ≠ '_' := char_isDigit_ne '_' hc (by decide)
      unfold parseDigitsU
      rw [if_neg (by simpa using hne), if_pos hc, List.foldl_cons]
      exact ih _ (fun d hd => h d (List.mem_cons_of_mem c hd))

theorem pyInt_digits {l : List Char} (h : isDigits l = true) :
    pyInt l = some (Int.ofNat (digitsToNat l)) := by
  have h' := h
  unfold isDigits at h'
  rw [Bool.and_eq_true] at h'
  have hall : ∀ c ∈ l, c.isDigit = true := fun c hc => List.all_eq_true.1 h'.2 c hc
  obtain ⟨c, rest, hcr⟩ : ∃ c rest, l = c :: rest := by
    cases l with
    | nil => cases h
    | cons c rest => exact ⟨c, rest, rfl⟩
  subst hcr
  have hrev : ∀ d ∈ (c :: rest).reverse, d.isDigit = true := fun d hd =>
    hall d (List.mem_reverse.1 hd)
  have hc : c.isDigit = true := hall c (List.mem_cons_self c rest)
  simp only [pyInt]
  rw [dropWhile_pySpace_digits hall, dropWhile_pySpace_digits hrev, List.reverse_reverse]
  simp only [parsePyDigits, if_neg (char_isDigit_ne '+' hc (by decide)),
    if_neg (char_isDigit_ne '-' hc (by decide)), if_pos hc,
    parseDigitsU_digits rest (digitVal c) (fun d hd => hall d (List.mem_cons_of_mem c hd)),
    Option.map_some']
  simp [digitsToNat]

theorem parse_version_eq (s : String) :
    parse_version s =
      match splitOn '.' (splitFirst '-' (s.data.dropWhile (fun c => c = 'v'))).1 with
      | [a, b, c] =>
          match pyInt a, pyInt b, pyInt c with
          | some x, some y, some z =>
              .ok ⟨x, y, z, (splitFirst '-' (s.data.dropWhile (fun c => c = 'v'))).2.getD []⟩
          | _, _, _ =>
              .error ("Invalid version format: " ++
                String.mk (s.data.dropWhile (fun c => c = 'v')))
      | _ =>
          .error ("Invalid version format: " ++
            String.mk (s.data.dropWhile (fun c => c = 'v'))) := rfl

theorem parse_version_isOk_false_iff (s : String) :
    (parse_version s).isOk = false ↔
      ((baseSegs s).length ≠ 3 ∨ ∃ seg ∈ baseSegs s, pyInt seg = none) := by
  rw [parse_version_eq]
  unfold baseSegs
  rcases hsegs : splitOn '.' (splitFirst '-' (s.data.dropWhile (fun c => c = 'v'))).1 with
    _ | ⟨a, rest1⟩
  · simp [Except.isOk, Except.toBool, Except.toBool]
  rcases rest1 with _ | ⟨b, rest2⟩
  · simp [Except.isOk, Except.toBool, Except.toBool]
  rcases rest2 with _ | ⟨c, rest3⟩
  · simp [Except.isOk, Except.toBool, Except.toBool]
  rcases rest3 with _ | ⟨d, t⟩
  · rcases ha : pyInt a with _ | x
    · simp [Except.isOk, Except.toBool, ha]
    rcases hb : pyInt b with _ | y
    · simp [Except.isOk, Except.toBool, ha, hb]
    rcases hc : pyInt c with _ | z
    · simp [Except.isOk, Except.toBool, ha, hb, hc]
    · simp [Except.isOk, Except.toBool, ha, hb, hc]
  · simp [Except.isOk, Except.toBool]

theorem parse_version_error_msg (s e : String) (h : parse_version s = .error e) :
    e = "Invalid version format: " ++ String.mk (s.data.dropWhile (fun c => c = 'v')) := by
  rw [parse_version_eq] at h
  split at h
  · split at h
    · cases h
    · exact (Except.error.inj h).symm
  · exact (Except.error.inj h).symm

/-- C2 counterexample: `"1.+2.3"` has exactly three dot-separated base
segments of which `"+2"` is not a non-negative decimal integer (not a digit
string), yet `parse_version` succeeds — Python's `int` also accepts a
leading sign — so the claim's "exactly when" characterisation fails. -/
theorem C2_counterexample :
    (baseSegs "1.+2.3").length = 3 ∧
    (∃ seg ∈ baseSegs "1.+2.3", isDigits seg = false) ∧
    parse_version "1.+2.3" = .ok ⟨1, 2, 3, []⟩ := by
  decide

/-- C2 amended: `parse_version` fails — with the offending (`v`-stripped)
string in the error message — exactly when the base portion does not split
into exactly three dot-separated segments or some segment is rejected by
Python's `int` conversion (which also accepts signed, underscored or
whitespace-padded digits); three plain digit segments always parse, and
`parse("1.2")` and `parse("1.2.x")` both fail. -/
theorem C2_amended_failure_iff :
    (∀ s : String, (parse_version s).isOk = false ↔
      ((baseSegs s).length ≠ 3 ∨ ∃ seg ∈ baseSegs s, pyInt seg = none)) ∧
    (∀ s : String, (baseSegs s).length = 3 →
      (∀ seg ∈ baseSegs s, isDigits seg = true) → (parse_version s).isOk = true) ∧
    (∀ s e : String, parse_version s = .error e →
      e = "Invalid version format: " ++ String.mk (s.data.dropWhile (fun c => c = 'v'))) ∧
    (parse_version "1.2").isOk = false ∧
    (parse_version "1.2.x").isOk = false := by
  refine ⟨parse_version_isOk_false_iff, ?_, parse_version_error_msg, by decide, by decide⟩
  intro s hlen hdig
  cases hok : (parse_version s).isOk with
  | true => rfl
  | false =>
      rcases (parse_version_isOk_false_iff s).1 hok with h | ⟨seg, hmem, hnone⟩
      · exact absurd hlen h
      · rw [pyInt_digits (hdig seg hmem)] at hnone
        cases hnone

/-- Witness for C2's amended claim: an all-digit triple parses, `"1.2"`
does not. -/
theorem C2_witness :
    (parse_version "0.10.200").isOk = true ∧ (parse_version "1.2").isOk = false :=
  ⟨C2_amended_failure_iff.2.1 "0.10.200" (by decide) (by decide),
   C2_amended_failure_iff.2.2.2.1⟩

/-- C5: the CLI exits 0 iff both arguments are present, both versions parse
and `new > current`; exits 1 iff both are present, both parse and `new` is
not higher; exits 2 iff an argument is missing (usage error) or a version
string is malformed, and then a message is written to stderr while no
comparison result is printed. -/
theorem C5_exit_codes (co no : Option String) :
    ((cliMain co no).exitCode = 0 ↔
      ∃ c n, co = some c ∧ no = some n ∧ compare_versions c n = .ok true) ∧
    ((cliMain co no).exitCode = 1 ↔
      ∃ c n, co = some c ∧ no = some n ∧ compare_versions c n = .ok false) ∧
    ((cliMain co no).exitCode = 2 ↔
      (co = none ∨ no = none ∨
        ∃ c n e, co = some c ∧ no = some n ∧ compare_versions c n = .error e)) ∧
    ((cliMain co no).exitCode = 2 →
      (cliMain co no).out = none ∧ (cliMain co no).err ≠ none) := by
  rcases co with _ | c
  · simp [cliMain]
  rcases no with _ | n
  · simp [cliMain]
  rcases hcmp : compare_versions c n with e | b
  · simp [cliMain, pyMain, hcmp]
  · rcases b with _ | _ <;> simp [cliMain, pyMain, hcmp]

/-- Witness for C5: a malformed `--new` argument exits 2 with a message on
stderr and nothing on stdout. -/
theorem C5_witness :
    (cliMain (some "1.2.3") (some "oops")).out = none ∧
    (cliMain (some "1.2.3") (some "oops")).err ≠ none :=
  (C5_exit_codes (some "1.2.3") (some "oops")).2.2.2 (by decide)

/-! ## Decimal notation round-trip, for the equal-triple claim -/

theorem char_digit_ofNat (d : Nat) (h : d < 10) :
    (Char.ofNat (48 + d)).isDigit = true ∧ (Char.ofNat (48 + d)).toNat = 48 + d := by
  interval_cases d <;> exact ⟨by decide, by decide⟩

theorem natReprAux_digits :
    ∀ (fuel n : Nat), ∀ c ∈ natReprAux n fuel, c.isDigit = true := by
  intro fuel
  induction fuel with
  | zero => intro n c hc; cases hc
  | succ fuel ih =>
      intro n c hc
      unfold natReprAux at hc
      by_cases hn : n = 0
      · rw [if_pos hn] at hc
        cases hc
      · rw [if_neg hn] at hc
        rcases List.mem_append.1 hc with h | h
        · exact ih _ c h
        · rcases List.mem_cons.1 h with h | h
          · rw [h]
            exact (char_digit_ofNat (n % 10) (Nat.mod_lt n (by norm_num))).1
          · cases h

theorem natReprAux_value :
    ∀ (fuel n : Nat), n < fuel → digitsToNat (natReprAux n fuel) = n := by
  intro fuel
  induction fuel with
  | zero => intro n hn; exact absurd hn (Nat.not_lt_zero n)
  | succ fuel ih =>
      intro n hn
      unfold natReprAux
      by_cases h0 : n = 0
      · rw [if_pos h0, h0]
        rfl
      · rw [if_neg h0]
        have hdiv : n / 10 < fuel :=
          lt_of_lt_of_le (Nat.div_lt_self (Nat.pos_of_ne_zero h0) (by norm_num))
            (Nat.lt_succ_iff.1 hn)
        unfold digitsToNat
        rw [List.foldl_append]
        have hval := ih (n / 10) hdiv
        unfold digitsToNat at hval
        rw [hval, List.foldl_cons, List.foldl_nil]
        unfold digitVal
        rw [(char_digit_ofNat (n % 10) (Nat.mod_lt n (by norm_num))).2]
        omega

theorem natRepr_digits (n : Nat) : ∀ c ∈ natRepr n, c.isDigit = true := by
  unfold natRepr
  by_cases h0 : n = 0
  · rw [if_pos h0]
    intro c hc
    rcases List.mem_singleton.1 hc with rfl
    decide
  · rw [if_neg h0]
    exact natReprAux_digits (n + 1) n

theorem natRepr_ne_nil (n : Nat) : natRepr n ≠ [] := by
  unfold natRepr
  by_cases h0 : n = 0
  · rw [if_pos h0]
    exact List.cons_ne_nil _ _
  · rw [if_neg h0]
    unfold natReprAux
    rw [if_neg h0]
    simp

theorem digitsToNat_natRepr (n : Nat) : digitsToNat (natRepr n) = n := by
  unfold natRepr
  by_cases h0 : n = 0
  · rw [if_pos h0, h0]
    rfl
  · rw [if_neg h0]
    exact natReprAux_value (n + 1) n (Nat.lt_succ_self n)

theorem isDigits_natRepr (n : Nat) : isDigits (natRepr n) = true := by
  unfold isDigits
  cases h : natRepr n with
  | nil => exact absurd h (natRepr_ne_nil n)
  | cons c0 r0 =>
      simp only [List.isEmpty_cons, Bool.not_false, Bool.true_and, List.all_eq_true]
      intro x hx
      exact natRepr_digits n x (by rw [h]; exact hx)

theorem splitFirst_not_mem {sep : Char} :
    ∀ {l : List Char}, sep ∉ l → splitFirst sep l = (l, none) := by
  intro l
  induction l with
  | nil => intro _; rfl
  | cons c rest ih =>
      intro h
      have hc : ¬(c = sep) := fun he => h (he ▸ List.mem_cons_self c rest)
      have hr := ih (fun hm => h (List.mem_cons_of_mem c hm))
      simp [splitFirst, hc, hr]

theorem splitOn_not_mem {sep : Char} :
    ∀ {l : List Char}, sep ∉ l → splitOn sep l = [l] := by
  intro l
  induction l with
  | nil => intro _; rfl
  | cons c rest ih =>
      intro h
      have hc : ¬(c = sep) := fun he => h (he ▸ List.mem_cons_self c rest)
      have hr := ih (fun hm => h (List.mem_cons_of_mem c hm))
      simp [splitOn, hc, hr]

theorem splitOn_append {sep : Char} :
    ∀ {xs : List Char} (ys : List Char), sep ∉ xs →
      splitOn sep (xs ++ sep :: ys) = xs :: splitOn sep ys := by
  intro xs
  induction xs with
  | nil => intro ys _; simp [splitOn]
  | cons c rest ih =>
      intro ys h
      have hc : ¬(c = sep) := fun he => h (he ▸ List.mem_cons_self c rest)
      have hr := ih ys (fun hm => h (List.mem_cons_of_mem c hm))
      simp [splitOn, hc, hr]

theorem dropWhile_v_digits {l : List Char} (m : List Char) (hne : l ≠ [])
    (h : ∀ c ∈ l, c.isDigit = true) :
    (l ++ m).dropWhile (fun c => decide (c = 'v')) = l ++ m := by
  obtain ⟨c0, r0, rfl⟩ := List.exists_cons_of_ne_nil hne
  have hv : ¬(c0 = 'v') := char_isDigit_ne 'v' (h c0 (List.mem_cons_self c0 r0)) (by decide)
  simp [List.dropWhile, hv]

theorem parse_verString (a b c : Nat) :
    parse_version (verString a b c) = .ok ⟨(a : Int), (b : Int), (c : Int), []⟩ := by
  have hda := natRepr_digits a
  have hdb := natRepr_digits b
  have hdc := natRepr_digits c
  have h1 : (verString a b c).data = natRepr a ++ '.' :: (natRepr b ++ '.' :: natRepr c) := rfl
  have h2 : (natRepr a ++ '.' :: (natRepr b ++ '.' :: natRepr c)).dropWhile
      (fun ch => decide (ch = 'v')) = natRepr a ++ '.' :: (natRepr b ++ '.' :: natRepr c) :=
    dropWhile_v_digits _ (natRepr_ne_nil a) hda
  have hnm : '-' ∉ natRepr a ++ '.' :: (natRepr b ++ '.' :: natRepr c) := by
    intro hm
    rcases List.mem_append.1 hm with h | h
    · exact absurd (hda _ h) (by decide)
    rcases List.mem_cons.1 h with h | h
    · exact absurd h (by decide)
    rcases List.mem_append.1 h with h | h
    · exact absurd (hdb _ h) (by decide)
    rcases List.mem_cons.1 h with h | h
    · exact absurd h (by decide)
    · exact absurd (hdc _ h) (by decide)
  have h3 : splitFirst '-' (natRepr a ++ '.' :: (natRepr b ++ '.' :: natRepr c)) =
      (natRepr a ++ '.' :: (natRepr b ++ '.' :: natRepr c), none) := splitFirst_not_mem hnm
  have hnda : '.' ∉ natRepr a := fun hm => absurd (hda _ hm) (by decide)
  have hndb : '.' ∉ natRepr b := fun hm => absurd (hdb _ hm) (by decide)
  have hndc : '.' ∉ natRepr c := fun hm => absurd (hdc _ hm) (by decide)
  have h4 : splitOn '.' (natRepr a ++ '.' :: (natRepr b ++ '.' :: natRepr c)) =
      [natRepr a, natRepr b, natRepr c] := by
    rw [splitOn_append _ hnda, splitOn_append _ hndb, splitOn_not_mem hndc]
  rw [parse_version_eq]
  simp only [h1, h2, h3, h4, pyInt_digits (isDigits_natRepr a),
    pyInt_digits (isDigits_natRepr b), pyInt_digits (isDigits_natRepr c),
    digitsToNat_natRepr, Option.getD]
  rfl

theorem compareParsed_self_nopre (v : Version) (h : v.prerelease = []) :
    compareParsed v v = false := by
  simp [compareParsed, h, lt_self_iff_false]

/-- C6: for every triple of non-negative integers, the string `"a.b.c"`
parses (both times) to the same `Version` value `(a, b, c, "")`, and the
comparator on the two equal strings returns `false` in both argument
orders. -/
theorem C6_equal_triples (a b c : Nat) :
    parse_version (verString a b c) = .ok ⟨(a : Int), (b : Int), (c : Int), []⟩ ∧
    compare_versions (verString a b c) (verString a b c) = .ok false := by
  have hp := parse_verString a b c
  refine ⟨hp, ?_⟩
  rw [compare_versions_ok hp hp, compareParsed_self_nopre _ rfl]
